import Mathlib

/-!
Verification of the prompto repository: a shallow embedding of the
migration scripts and the Express read API, with proofs about the
idempotent batch writer, the pagination helpers, the API-key middleware,
the JSON array extractor, the category linker and the config cache.

Sources embedded here:
  - src/unnamed/part_000 (migration script v2): batchWriteToFirestore,
    extractArrayFromJSON, migrateCategories / migratePrompts /
    migratePromptDetails record construction, filename category linking.
  - src/unnamed/part_003 (storage-backed API): paginate, getConfig,
    verifyAPIKey middleware.

Modelling conventions: JavaScript values appearing in the data files are
modelled by the inductive type JVal (JSON values plus the Firestore
serverTimestamp sentinel); objects and documents are association lists
with JavaScript lookup semantics (unique keys after parsing); machine
time is Nat milliseconds; a batch commit either succeeds or fails, which
is external nondeterminism passed in as a Bool-valued oracle indexed by
the number of commits issued so far. Document ids are modelled as
strings, which is what Firestore requires and what the data uses.
-/

namespace Prompto

/-- JSON-like values as produced by JSON.parse, extended with the
Firestore serverTimestamp sentinel the migration scripts attach. -/
inductive JVal where
  | jnull
  | jbool (b : Bool)
  | jnum (n : Int)
  | jstr (s : String)
  | jarr (elems : List JVal)
  | jobj (fields : List (String × JVal))
  | serverTimestamp

/-- JavaScript truthiness on values: null, false, 0 and the empty string
are falsy; arrays, objects and the timestamp sentinel are truthy. -/
def jsFalsy : JVal → Bool
  | .jnull => true
  | .jbool b => !b
  | .jnum n => n == 0
  | .jstr s => s == ""
  | _ => false

/-- Association-list lookup with JavaScript property semantics (first
entry wins; parsed objects have unique keys). -/
def alookup {β : Type} (k : String) : List (String × β) → Option β
  | [] => none
  | (k1, v) :: rest => if k = k1 then some v else alookup k rest

/-- A document body: field name to value, unique keys. -/
abbrev Doc := List (String × JVal)

/-- A Firestore collection, observed through lookup by document id. -/
abbrev Collection := List (String × Doc)

/-- Filtering with a predicate that keeps every entry carrying key k
does not change the lookup of k. -/
theorem alookup_filter_keep {β : Type} (l : List (String × β)) (p : String × β → Bool)
    (k : String) (h : ∀ v, (k, v) ∈ l → p (k, v) = true) :
    alookup k (l.filter p) = alookup k l := by
  induction l with
  | nil => rfl
  | cons e rest ih =>
    obtain ⟨k1, v1⟩ := e
    have htail : ∀ v, (k, v) ∈ rest → p (k, v) = true := by
      intro v hv
      exact h v (List.mem_cons_of_mem _ hv)
    by_cases hk : k = k1
    · subst hk
      have hp := h v1 (List.mem_cons_self _ _)
      simp [List.filter, hp, alookup]
    · by_cases hpe : p (k1, v1) = true
      · simp [List.filter, hpe, alookup, hk, ih htail]
      · simp only [Bool.not_eq_true] at hpe
        simp [List.filter, hpe, alookup, hk, ih htail]

/-- Filtering with a predicate that drops every entry carrying key k
makes the lookup of k fail. -/
theorem alookup_filter_drop {β : Type} (l : List (String × β)) (p : String × β → Bool)
    (k : String) (h : ∀ v, (k, v) ∈ l → p (k, v) = false) :
    alookup k (l.filter p) = none := by
  induction l with
  | nil => rfl
  | cons e rest ih =>
    obtain ⟨k1, v1⟩ := e
    have htail : ∀ v, (k, v) ∈ rest → p (k, v) = false := by
      intro v hv
      exact h v (List.mem_cons_of_mem _ hv)
    by_cases hk : k = k1
    · subst hk
      have hp := h v1 (List.mem_cons_self _ _)
      simp [List.filter, hp, ih htail]
    · by_cases hpe : p (k1, v1) = true
      · simp [List.filter, hpe, alookup, hk, ih htail]
      · simp only [Bool.not_eq_true] at hpe
        simp [List.filter, hpe, ih htail]

/-- Lookup distributes over append: the left list is consulted first. -/
theorem alookup_append {β : Type} (l1 l2 : List (String × β)) (k : String) :
    alookup k (l1 ++ l2) =
      (match alookup k l1 with
       | some v => some v
       | none => alookup k l2) := by
  induction l1 with
  | nil => simp [alookup]
  | cons e rest ih =>
    obtain ⟨k1, v1⟩ := e
    by_cases hk : k = k1
    · simp [alookup, hk]
    · simp [alookup, hk, ih]

/-- Firestore set with merge: fields of the new data override, fields of
the old document absent from the new data are preserved. -/
def mergeDoc (old d : Doc) : Doc :=
  old.filter (fun p => (alookup p.fst d).isNone) ++ d

theorem mergeDoc_lookup_new (old d : Doc) (f : String) (v : JVal)
    (h : alookup f d = some v) : alookup f (mergeDoc old d) = some v := by
  unfold mergeDoc
  rw [alookup_append]
  have hdrop : alookup f (old.filter (fun p => (alookup p.fst d).isNone)) = none := by
    apply alookup_filter_drop
    intro w _
    simp [h]
  simp [hdrop, h]

theorem mergeDoc_lookup_old (old d : Doc) (f : String)
    (h : alookup f d = none) : alookup f (mergeDoc old d) = alookup f old := by
  unfold mergeDoc
  rw [alookup_append]
  have hkeep : alookup f (old.filter (fun p => (alookup p.fst d).isNone)) = alookup f old := by
    apply alookup_filter_keep
    intro w _
    simp [h]
  rw [hkeep]
  cases hl : alookup f old <;> simp [h]

/-- The migration mode flag of the v2 migration script. -/
inductive Mode where
  | fresh
  | update
  | force
deriving DecidableEq, Repr

/-- One incoming record of the batch writer: a pre-assigned document id
together with pre-processed document data. -/
structure Record where
  docId : String
  data : Doc

/-- The observable outcome of one call to the batch writer: the final
collection content plus the three counters it returns, and the number of
batch commits it issued against the database. -/
structure WriteOutcome where
  col : Collection
  successCount : Nat
  errorCount : Nat
  skippedCount : Nat
  commitsIssued : Nat

/-- batch.set without merge: a full-replace write. -/
def setPlain (c : Collection) (k : String) (d : Doc) : Collection :=
  (k, d) :: c

/-- batch.set with merge: true merge-write semantics. -/
def setMerged (c : Collection) (k : String) (d : Doc) : Collection :=
  match alookup k c with
  | some old => (k, mergeDoc old d) :: c
  | none => (k, d) :: c

/-- Applying one queued write of a committed batch. -/
def applyWrite (useMerge : Bool) (c : Collection) (r : Record) : Collection :=
  if useMerge then setMerged c r.docId r.data else setPlain c r.docId r.data

/-- Skip condition of the writer:
mode === "update" && docId && existingIds.has(docId). -/
def isSkipped (mode : Mode) (existing : List String) (r : Record) : Bool :=
  mode == .update && r.docId != "" && existing.contains r.docId

/-- Partitioning worker: the first argument is a structural-recursion
bound (any number at least the list length); each step takes one chunk
of at most k elements off the front, mirroring the for-loop that slices
data in steps of batchSize. -/
def chunksOfB (k : Nat) : Nat → List α → List (List α)
  | _, [] => []
  | 0, _ :: _ => []
  | b + 1, x :: xs =>
    if k = 0 then []
    else (x :: xs).take k :: chunksOfB k b ((x :: xs).drop k)

/-- Partitioning a list into consecutive chunks of at most k elements. -/
def chunksOf (k : Nat) (l : List α) : List (List α) :=
  chunksOfB k l.length l

/-- Concatenation of a list of chunks. -/
def joinAll : List (List α) → List α
  | [] => []
  | c :: cs => c ++ joinAll cs

/-- The per-chunk loop of batchWriteToFirestore: count the skipped
records of the chunk, and if any write remains, issue one commit; a
failed commit adds the whole batch to the error counter, a successful
one applies the writes and adds it to the success counter. The Boolean
oracle fails is indexed by the number of commits issued so far. -/
def runChunks (mode : Mode) (existing : List String) (fails : Nat → Bool) :
    List (List Record) → WriteOutcome → WriteOutcome
  | [], s => s
  | c :: cs, s =>
    let toWrite := c.filter (fun r => !(isSkipped mode existing r))
    let skippedHere := (c.filter (fun r => isSkipped mode existing r)).length
    let s1 : WriteOutcome :=
      ⟨s.col, s.successCount, s.errorCount, s.skippedCount + skippedHere, s.commitsIssued⟩
    let s2 : WriteOutcome :=
      if toWrite.length = 0 then s1
      else if fails s1.commitsIssued then
        ⟨s1.col, s1.successCount, s1.errorCount + toWrite.length, s1.skippedCount,
          s1.commitsIssued + 1⟩
      else
        ⟨toWrite.foldl (applyWrite (mode == .force)) s1.col,
          s1.successCount + toWrite.length, s1.errorCount, s1.skippedCount,
          s1.commitsIssued + 1⟩
    runChunks mode existing fails cs s2

/-- getExistingDocIds of the v2 migration script: the full-collection
key scan returns the set of existing document ids, but its catch
handler logs the error and returns an empty set when the scan fails, so
a failed scan makes update mode see no existing ids at all. -/
def getExistingDocIds (col : Collection) (scanFails : Bool) : List String :=
  if scanFails then [] else col.map Prod.fst

/-- The idempotent batch writer of the v2 migration script
(src/unnamed/part_000, batchWriteToFirestore): empty input returns zero
counters; in update mode the existing document ids are collected first,
the Boolean scanFails telling whether that scan fails and falls back to
the empty set; records are then processed in chunks of at most 500. -/
def batchWriteToFirestore (col : Collection) (data : List Record)
    (mode : Mode) (scanFails : Bool) (fails : Nat → Bool) : WriteOutcome :=
  if data.isEmpty then ⟨col, 0, 0, 0, 0⟩
  else
    let existing : List String :=
      if mode == .update then getExistingDocIds col scanFails else []
    runChunks mode existing fails (chunksOf 500 data) ⟨col, 0, 0, 0, 0⟩


/-- Contains on string lists agrees with membership. -/
theorem contains_true_iff_mem (l : List String) (a : String) :
    l.contains a = true ↔ a ∈ l :=
  List.elem_iff

/-- The two halves of a Boolean partition of a list account for its
whole length. -/
theorem length_filter_add (p : α → Bool) (l : List α) :
    (l.filter p).length + (l.filter (fun a => !(p a))).length = l.length := by
  induction l with
  | nil => rfl
  | cons x xs ih =>
    by_cases h : p x = true
    · simp [List.filter, h]; omega
    · simp only [Bool.not_eq_true] at h
      simp [List.filter, h]; omega

/-- Chunking and re-joining is the identity. -/
theorem joinAll_chunksOfB (k : Nat) (hk : k ≠ 0) (b : Nat) (l : List α)
    (hb : l.length ≤ b) : joinAll (chunksOfB k b l) = l := by
  induction b generalizing l with
  | zero =>
    cases l with
    | nil => rfl
    | cons x xs => simp at hb
  | succ b ih =>
    cases l with
    | nil => rfl
    | cons x xs =>
      rw [chunksOfB, if_neg hk, joinAll]
      rw [ih _ (by simp only [List.length_drop, List.length_cons] at *; omega)]
      exact List.take_append_drop k (x :: xs)

/-- Chunking and re-joining is the identity. -/
theorem joinAll_chunksOf (k : Nat) (hk : k ≠ 0) (l : List α) :
    joinAll (chunksOf k l) = l :=
  joinAll_chunksOfB k hk l.length l (Nat.le_refl _)

/-- Every chunk is nonempty and no longer than the chunk size. -/
theorem chunksOfB_mem (k b : Nat) (l : List α) (c : List α) (hc : c ∈ chunksOfB k b l) :
    c ≠ [] ∧ c.length ≤ k := by
  induction b generalizing l with
  | zero =>
    cases l with
    | nil => simp [chunksOfB] at hc
    | cons x xs => simp [chunksOfB] at hc
  | succ b ih =>
    cases l with
    | nil => simp [chunksOfB] at hc
    | cons x xs =>
      by_cases hk : k = 0
      · rw [chunksOfB, if_pos hk] at hc
        simp at hc
      · rw [chunksOfB, if_neg hk] at hc
        rcases List.mem_cons.mp hc with hc | hc
        · subst hc
          constructor
          · intro hnil
            have := congrArg List.length hnil
            simp [List.length_take] at this
            omega
          · simp [List.length_take]
        · exact ih _ hc

/-- Every chunk is nonempty and no longer than the chunk size. -/
theorem chunksOf_mem (k : Nat) (l : List α) (c : List α) (hc : c ∈ chunksOf k l) :
    c ≠ [] ∧ c.length ≤ k :=
  chunksOfB_mem k l.length l c hc

/-- The number of 500-chunks is the ceiling of n / 500. -/
theorem chunksOfB_500_length (b : Nat) (l : List α) (hb : l.length ≤ b) :
    (chunksOfB 500 b l).length = (l.length + 499) / 500 := by
  induction b generalizing l with
  | zero =>
    cases l with
    | nil => simp [chunksOfB]
    | cons x xs => simp at hb
  | succ b ih =>
    cases l with
    | nil => simp [chunksOfB]
    | cons x xs =>
      rw [chunksOfB, if_neg (by omega : ¬(500 : Nat) = 0)]
      rw [List.length_cons, ih _ (by simp only [List.length_drop, List.length_cons] at *; omega)]
      simp only [List.length_drop, List.length_cons]
      simp only [List.length_cons] at hb
      omega

/-- The number of 500-chunks is the ceiling of n / 500. -/
theorem chunksOf_500_length (l : List α) :
    (chunksOf 500 l).length = (l.length + 499) / 500 :=
  chunksOfB_500_length l.length l (Nat.le_refl _)

/-- Sum of the batch sizes of the failing commits, the commit counter
starting at j. -/
def failedTotal (fails : Nat → Bool) : Nat → List Nat → Nat
  | _, [] => 0
  | j, n :: ns => (if fails j then n else 0) + failedTotal fails (j + 1) ns

/-- Sum of the batch sizes of the succeeding commits, the commit counter
starting at j. -/
def passedTotal (fails : Nat → Bool) : Nat → List Nat → Nat
  | _, [] => 0
  | j, n :: ns => (if fails j then 0 else n) + passedTotal fails (j + 1) ns

/-- The skipped counter after the chunk loop counts exactly the records
satisfying the skip condition. -/
theorem runChunks_skippedCount (mode : Mode) (existing : List String)
    (fails : Nat → Bool) (cs : List (List Record)) (s : WriteOutcome) :
    (runChunks mode existing fails cs s).skippedCount
      = s.skippedCount + ((joinAll cs).filter (fun r => isSkipped mode existing r)).length := by
  induction cs generalizing s with
  | nil => simp [runChunks, joinAll]
  | cons c cs ih =>
    simp only [runChunks, joinAll]
    split_ifs with h1 h2 <;>
      · rw [ih]
        simp [List.filter_append]
        omega

/-- The three counters always account for every processed record. -/
theorem runChunks_counts (mode : Mode) (existing : List String)
    (fails : Nat → Bool) (cs : List (List Record)) (s : WriteOutcome) :
    (runChunks mode existing fails cs s).successCount
      + (runChunks mode existing fails cs s).errorCount
      + (runChunks mode existing fails cs s).skippedCount
      = s.successCount + s.errorCount + s.skippedCount + (joinAll cs).length := by
  induction cs generalizing s with
  | nil => simp [runChunks, joinAll]
  | cons c cs ih =>
    simp only [runChunks, joinAll]
    have hpart : (c.filter (fun r => isSkipped mode existing r)).length
        + (c.filter (fun r => !(isSkipped mode existing r))).length = c.length :=
      length_filter_add _ c
    split_ifs with h1 h2 <;>
      · rw [ih]
        simp [List.length_append]
        omega

/-- A single queued write leaves the lookup of every other key alone. -/
theorem applyWrite_lookup_ne (useMerge : Bool) (c : Collection) (r : Record)
    (k : String) (hk : k ≠ r.docId) :
    alookup k (applyWrite useMerge c r) = alookup k c := by
  unfold applyWrite setPlain setMerged
  split_ifs with hm
  · cases h : alookup r.docId c <;> simp [alookup, hk]
  · simp [alookup, hk]

/-- A committed batch of writes leaves the lookup of every key none of
its records targets alone. -/
theorem foldl_applyWrite_lookup_ne (useMerge : Bool) (l : List Record)
    (c : Collection) (k : String) (h : ∀ r ∈ l, r.docId ≠ k) :
    alookup k (l.foldl (applyWrite useMerge) c) = alookup k c := by
  induction l generalizing c with
  | nil => rfl
  | cons a l ih =>
    simp only [List.foldl_cons]
    rw [ih _ (fun r hr => h r (List.mem_cons_of_mem _ hr))]
    exact applyWrite_lookup_ne useMerge c a k
      (fun he => h a (List.mem_cons_self _ _) he.symm)

/-- The chunk loop never touches a key that no unskipped record targets. -/
theorem runChunks_col_stable (mode : Mode) (existing : List String)
    (fails : Nat → Bool) (cs : List (List Record)) (s : WriteOutcome) (k : String)
    (h : ∀ r ∈ joinAll cs, isSkipped mode existing r = false → r.docId ≠ k) :
    alookup k (runChunks mode existing fails cs s).col = alookup k s.col := by
  induction cs generalizing s with
  | nil => rfl
  | cons c cs ih =>
    have hc : ∀ r ∈ c.filter (fun r => !(isSkipped mode existing r)), r.docId ≠ k := by
      intro r hr
      have hmem := List.mem_filter.mp hr
      refine h r (by simp [joinAll, hmem.1]) ?_
      simpa using hmem.2
    have htail : ∀ r ∈ joinAll cs, isSkipped mode existing r = false → r.docId ≠ k := by
      intro r hr
      exact h r (by simp [joinAll, hr])
    simp only [runChunks]
    split_ifs with h1 h2 <;>
      rw [ih _ htail] <;>
      simp [foldl_applyWrite_lookup_ne _ _ _ _ hc]

/-- When no record is skipped and every chunk is nonempty, the loop
issues one commit per chunk and distributes the records of the chunks
over the success and error counters according to which commits fail. -/
theorem runChunks_noskip (mode : Mode) (existing : List String)
    (fails : Nat → Bool) (cs : List (List Record)) (s : WriteOutcome)
    (hns : ∀ r ∈ joinAll cs, isSkipped mode existing r = false)
    (hne : ∀ c ∈ cs, c ≠ []) :
    (runChunks mode existing fails cs s).commitsIssued = s.commitsIssued + cs.length
    ∧ (runChunks mode existing fails cs s).errorCount
        = s.errorCount + failedTotal fails s.commitsIssued (cs.map List.length)
    ∧ (runChunks mode existing fails cs s).successCount
        = s.successCount + passedTotal fails s.commitsIssued (cs.map List.length) := by
  induction cs generalizing s with
  | nil => simp [runChunks, failedTotal, passedTotal]
  | cons c cs ih =>
    have hcall : ∀ r ∈ c, isSkipped mode existing r = false := by
      intro r hr
      exact hns r (by simp [joinAll, hr])
    have htail : ∀ r ∈ joinAll cs, isSkipped mode existing r = false := by
      intro r hr
      exact hns r (by simp [joinAll, hr])
    have hfid : c.filter (fun r => !(isSkipped mode existing r)) = c :=
      List.filter_eq_self.mpr (by intro a ha; simp [hcall a ha])
    have hnetail : ∀ d ∈ cs, d ≠ [] := fun d hd => hne d (List.mem_cons_of_mem _ hd)
    have hlen0 : ¬c.length = 0 := by
      have := hne c (List.mem_cons_self _ _)
      simpa [List.length_eq_zero] using this
    have hskip0 : c.filter (fun r => isSkipped mode existing r) = [] := by
      rw [List.filter_eq_nil_iff]
      intro a ha
      simp [hcall a ha]
    simp only [runChunks, hfid, hskip0, List.length_nil, Nat.add_zero]
    rw [if_neg hlen0]
    by_cases hf : fails s.commitsIssued = true
    · rw [if_pos hf]
      obtain ⟨h1, h2, h3⟩ :=
        ih ⟨s.col, s.successCount, s.errorCount + c.length, s.skippedCount,
          s.commitsIssued + 1⟩ htail hnetail
      refine ⟨?_, ?_, ?_⟩
      · rw [h1]; simp [List.length_cons]; omega
      · rw [h2]; simp [List.map_cons, failedTotal, hf]; omega
      · rw [h3]; simp [List.map_cons, passedTotal, hf]
    · rw [if_neg hf]
      obtain ⟨h1, h2, h3⟩ :=
        ih ⟨c.foldl (applyWrite (mode == .force)) s.col, s.successCount + c.length,
          s.errorCount, s.skippedCount, s.commitsIssued + 1⟩ htail hnetail
      refine ⟨?_, ?_, ?_⟩
      · rw [h1]; simp [List.length_cons]; omega
      · rw [h2]; simp [List.map_cons, failedTotal, hf]
      · rw [h3]; simp [List.map_cons, passedTotal, hf]; omega

/-- With no skips and no commit failures, the final collection is the
fold of all the writes in order. -/
theorem runChunks_nofail_col (mode : Mode) (existing : List String)
    (cs : List (List Record)) (s : WriteOutcome)
    (hns : ∀ r ∈ joinAll cs, isSkipped mode existing r = false) :
    (runChunks mode existing (fun _ => false) cs s).col
      = (joinAll cs).foldl (applyWrite (mode == .force)) s.col := by
  induction cs generalizing s with
  | nil => simp [runChunks, joinAll]
  | cons c cs ih =>
    have hcall : ∀ r ∈ c, isSkipped mode existing r = false := by
      intro r hr
      exact hns r (by simp [joinAll, hr])
    have htail : ∀ r ∈ joinAll cs, isSkipped mode existing r = false := by
      intro r hr
      exact hns r (by simp [joinAll, hr])
    have hfid : c.filter (fun r => !(isSkipped mode existing r)) = c :=
      List.filter_eq_self.mpr (by intro a ha; simp [hcall a ha])
    simp only [runChunks, hfid, joinAll, List.foldl_append]
    by_cases hlen : c.length = 0
    · have hcnil : c = [] := List.length_eq_zero.mp hlen
      subst hcnil
      simp [ih _ htail]
    · rw [if_neg hlen]
      simp only [Bool.false_eq_true, if_false]
      rw [ih _ htail]

/-- With no failing commit the total of failed batch sizes is zero. -/
theorem failedTotal_false (j : Nat) (ns : List Nat) :
    failedTotal (fun _ => false) j ns = 0 := by
  induction ns generalizing j with
  | nil => rfl
  | cons n ns ih => simp [failedTotal, ih]

/-- Full-replace folds: the last write to an id wins, and with distinct
ids each record ends up stored verbatim. -/
theorem foldl_applyWrite_lookup_plain (l : List Record) (c : Collection) (r : Record)
    (hr : r ∈ l) (hnd : (l.map Record.docId).Nodup) :
    alookup r.docId (l.foldl (applyWrite false) c) = some r.data := by
  induction l generalizing c with
  | nil => cases hr
  | cons a l ih =>
    rw [List.map_cons, List.nodup_cons] at hnd
    rcases List.mem_cons.mp hr with hra | hrl
    · subst hra
      have hnot : ∀ x ∈ l, x.docId ≠ r.docId := by
        intro x hx he
        exact hnd.1 (he ▸ List.mem_map_of_mem Record.docId hx)
      simp only [List.foldl_cons]
      rw [foldl_applyWrite_lookup_ne false l _ _ hnot]
      simp [applyWrite, setPlain, alookup]
    · have hne : a.docId ≠ r.docId := by
        intro he
        exact hnd.1 (he ▸ List.mem_map_of_mem Record.docId hrl)
      simp only [List.foldl_cons]
      exact ih _ hrl hnd.2

/-- Merge folds: with distinct ids each record ends up merged over
whatever the starting collection holds under its id. -/
theorem foldl_applyWrite_lookup_merge (l : List Record) (c : Collection) (r : Record)
    (hr : r ∈ l) (hnd : (l.map Record.docId).Nodup) :
    alookup r.docId (l.foldl (applyWrite true) c)
      = some (match alookup r.docId c with
              | some old => mergeDoc old r.data
              | none => r.data) := by
  induction l generalizing c with
  | nil => cases hr
  | cons a l ih =>
    rw [List.map_cons, List.nodup_cons] at hnd
    rcases List.mem_cons.mp hr with hra | hrl
    · subst hra
      have hnot : ∀ x ∈ l, x.docId ≠ r.docId := by
        intro x hx he
        exact hnd.1 (he ▸ List.mem_map_of_mem Record.docId hx)
      simp only [List.foldl_cons]
      rw [foldl_applyWrite_lookup_ne true l _ _ hnot]
      simp only [applyWrite, if_true, setMerged]
      cases hold : alookup r.docId c <;> simp [alookup]
    · have hne : a.docId ≠ r.docId := by
        intro he
        exact hnd.1 (he ▸ List.mem_map_of_mem Record.docId hrl)
      simp only [List.foldl_cons]
      rw [ih _ hrl hnd.2]
      rw [applyWrite_lookup_ne true c a r.docId (fun he => hne he.symm)]

/-- On nonempty input the writer is the chunk loop started on the empty
counters, with the existing-id scan performed only in update mode. -/
theorem batchWrite_eq_run (col : Collection) (data : List Record)
    (mode : Mode) (scanFails : Bool) (fails : Nat → Bool) (hne : data ≠ []) :
    batchWriteToFirestore col data mode scanFails fails
      = runChunks mode
          (if mode == Mode.update then getExistingDocIds col scanFails else []) fails
          (chunksOf 500 data) ⟨col, 0, 0, 0, 0⟩ := by
  unfold batchWriteToFirestore
  rw [if_neg (by simpa [List.isEmpty_iff] using hne)]

/-- Claim C1 (amended): in update mode, when the existing-ID scan
succeeds, the content stored under every pre-existing key is left
unchanged by the call (no pre-existing record is written), and the
skipped counter ends up counting exactly the incoming records whose key
is already present — with distinct incoming ids this is once per
pre-existing key. When the scan fails, getExistingDocIds falls back to
the empty set, so the same update-mode call skips nothing and writes
every record with full-replace semantics, overwriting pre-existing
documents. The hypothesis hkeys states that stored document ids are
nonempty strings, which Firestore guarantees. -/
theorem claim1_update_preserves (col : Collection) (data : List Record) (fails : Nat → Bool)
    (hkeys : ∀ k ∈ col.map Prod.fst, k ≠ "") :
    (∀ k, k ∈ col.map Prod.fst →
        alookup k (batchWriteToFirestore col data .update false fails).col = alookup k col)
    ∧ (batchWriteToFirestore col data .update false fails).skippedCount
        = (data.filter (fun r => (col.map Prod.fst).contains r.docId)).length
    ∧ (batchWriteToFirestore col data .update true fails).skippedCount = 0
    ∧ ((data.map Record.docId).Nodup → ∀ r ∈ data,
        alookup r.docId (batchWriteToFirestore col data .update true (fun _ => false)).col
          = some r.data) := by
  by_cases hdata : data = []
  · subst hdata
    refine ⟨fun k _ => by simp [batchWriteToFirestore],
      by simp [batchWriteToFirestore], by simp [batchWriteToFirestore],
      fun _ => by simp⟩
  · have hif : (if Mode.update == Mode.update then getExistingDocIds col false else [])
        = col.map Prod.fst := rfl
    have hif1 : (if Mode.update == Mode.update then getExistingDocIds col true else [])
        = [] := rfl
    have hjoin : joinAll (chunksOf 500 data) = data := joinAll_chunksOf 500 (by omega) data
    have hnsnil : ∀ (fl : Nat → Bool), ∀ r ∈ joinAll (chunksOf 500 data),
        isSkipped .update [] r = false := by
      intro fl r _
      have hc : (([] : List String).contains r.docId) = false := rfl
      simp only [isSkipped, hc, Bool.and_false]
    refine ⟨?_, ?_, ?_, ?_⟩
    · intro k hkmem
      rw [batchWrite_eq_run col data .update false fails hdata, hif]
      have hstable := runChunks_col_stable .update (col.map Prod.fst) fails
        (chunksOf 500 data) ⟨col, 0, 0, 0, 0⟩ k ?_
      · exact hstable
      · intro r _ hskip he
        have hc : (col.map Prod.fst).contains r.docId = true := by
          rw [he]
          exact (contains_true_iff_mem _ _).mpr hkmem
        have hne1 : r.docId ≠ "" := by
          rw [he]
          exact hkeys k hkmem
        have h2 : (r.docId != "") = true := by simp [hne1]
        simp only [isSkipped, beq_self_eq_true, h2, hc, Bool.and_self, Bool.true_and,
          Bool.and_true] at hskip
        cases hskip
    · rw [batchWrite_eq_run col data .update false fails hdata, hif]
      rw [runChunks_skippedCount, hjoin]
      have hcong : data.filter (fun r => isSkipped .update (col.map Prod.fst) r)
          = data.filter (fun r => (col.map Prod.fst).contains r.docId) := by
        apply List.filter_congr
        intro r _
        by_cases hc : (col.map Prod.fst).contains r.docId = true
        · have hmem := (contains_true_iff_mem _ _).mp hc
          have hne1 := hkeys _ hmem
          have h2 : (r.docId != "") = true := by simp [hne1]
          have hx : isSkipped .update (col.map Prod.fst) r = true := by
            simp only [isSkipped, beq_self_eq_true, h2, hc, Bool.and_self, Bool.true_and,
              Bool.and_true]
          rw [hx, hc]
        · have hc0 : (col.map Prod.fst).contains r.docId = false := by
            simpa using hc
          have hx : isSkipped .update (col.map Prod.fst) r = false := by
            simp only [isSkipped, hc0, Bool.and_false]
          rw [hx, hc0]
      rw [hcong]
      simp
    · rw [batchWrite_eq_run col data .update true fails hdata, hif1]
      rw [runChunks_skippedCount, hjoin]
      have hfnil : data.filter (fun r => isSkipped .update [] r) = [] := by
        rw [List.filter_eq_nil_iff]
        intro a ha
        have hc : (([] : List String).contains a.docId) = false := rfl
        simp [isSkipped, hc]
      simp [hfnil]
    · intro hnd r hr
      rw [batchWrite_eq_run col data .update true _ hdata, hif1]
      rw [runChunks_nofail_col .update [] (chunksOf 500 data) ⟨col, 0, 0, 0, 0⟩
        (hnsnil (fun _ => false)), hjoin]
      have hmf : (Mode.update == Mode.force) = false := rfl
      rw [hmf]
      exact foldl_applyWrite_lookup_plain data col r hr hnd

/-- Claim C1 counterexample: with a succeeding scan, two incoming
records carrying the same pre-existing key increment the skipped
counter twice, although a single distinct pre-existing key occurs among
the incoming records, so the counter is not incremented once per
pre-existing key. -/
theorem claim1_counterexample :
    (batchWriteToFirestore [("a", [("f", JVal.jstr "v")])]
        [⟨"a", []⟩, ⟨"a", []⟩] .update false (fun _ => false)).skippedCount = 2
    ∧ (([("a", [("f", JVal.jstr "v")])].map Prod.fst).filter
        (fun k => (([⟨"a", []⟩, ⟨"a", []⟩] : List Record).map Record.docId).contains k)).length
      = 1 := by
  constructor <;> decide

/-- Claim C1 witness: the amended theorem evaluated on a concrete
collection and record list, for both scan outcomes: with a succeeding
scan the pre-existing document is preserved and counted skipped; with a
failing scan nothing is skipped and the pre-existing document is
overwritten with the incoming (empty) data. -/
theorem claim1_witness :
    alookup "a" (batchWriteToFirestore [("a", [("f", JVal.jstr "v")])]
        [⟨"a", []⟩, ⟨"b", []⟩] .update false (fun _ => false)).col
      = alookup "a" [("a", [("f", JVal.jstr "v")])]
    ∧ (batchWriteToFirestore [("a", [("f", JVal.jstr "v")])]
        [⟨"a", []⟩, ⟨"b", []⟩] .update false (fun _ => false)).skippedCount
      = (([⟨"a", []⟩, ⟨"b", []⟩] : List Record).filter
          (fun r => (([("a", [("f", JVal.jstr "v")])] : Collection).map Prod.fst).contains
            r.docId)).length
    ∧ (batchWriteToFirestore [("a", [("f", JVal.jstr "v")])]
        [⟨"a", []⟩, ⟨"b", []⟩] .update true (fun _ => false)).skippedCount = 0
    ∧ alookup "a" (batchWriteToFirestore [("a", [("f", JVal.jstr "v")])]
        [⟨"a", []⟩, ⟨"b", []⟩] .update true (fun _ => false)).col = some [] :=
  ⟨(claim1_update_preserves _ _ (fun _ => false) (by decide)).1 "a" (by decide),
   (claim1_update_preserves _ _ (fun _ => false) (by decide)).2.1,
   (claim1_update_preserves _ _ (fun _ => false) (by decide)).2.2.1,
   (claim1_update_preserves _ _ (fun _ => false) (by decide)).2.2.2 (by decide) ⟨"a", []⟩
     (List.mem_cons_self _ _)⟩

/-- Claim C2 (amended): in fresh or force mode (more generally whenever
no record is skipped) the writer partitions the records into nonempty
chunks of at most 500, issues exactly ceil(n/500) commits whatever the
commit outcomes are (a failure never prevents later commits), marks all
records of a failing chunk as failed and all records of a succeeding
chunk as succeeded, and accounts for every record in exactly one of the
two counters. -/
theorem claim2_chunked_commits (col : Collection) (data : List Record)
    (mode : Mode) (scanFails : Bool) (fails : Nat → Bool)
    (hm : mode = .fresh ∨ mode = .force) (hlen : 500 < data.length) :
    joinAll (chunksOf 500 data) = data
    ∧ (∀ c ∈ chunksOf 500 data, c ≠ [] ∧ c.length ≤ 500)
    ∧ (batchWriteToFirestore col data mode scanFails fails).commitsIssued = (data.length + 499) / 500
    ∧ (batchWriteToFirestore col data mode scanFails fails).errorCount
        = failedTotal fails 0 ((chunksOf 500 data).map List.length)
    ∧ (batchWriteToFirestore col data mode scanFails fails).successCount
        = passedTotal fails 0 ((chunksOf 500 data).map List.length)
    ∧ (batchWriteToFirestore col data mode scanFails fails).successCount
        + (batchWriteToFirestore col data mode scanFails fails).errorCount = data.length
    ∧ (batchWriteToFirestore col data mode scanFails fails).skippedCount = 0 := by
  have hdata : data ≠ [] := by
    intro h
    rw [h] at hlen
    simp at hlen
  have hmu : (mode == Mode.update) = false := by
    rcases hm with h | h <;> subst h <;> rfl
  have hjoin : joinAll (chunksOf 500 data) = data := joinAll_chunksOf 500 (by omega) data
  have hexist : (if mode == Mode.update then getExistingDocIds col scanFails else [])
      = [] := by
    rw [hmu]
    rfl
  have hns : ∀ r ∈ joinAll (chunksOf 500 data), isSkipped mode [] r = false := by
    intro r _
    simp only [isSkipped, hmu, Bool.false_and]
  have hnechunks : ∀ c ∈ chunksOf 500 data, c ≠ [] :=
    fun c hc => (chunksOf_mem 500 data c hc).1
  rw [batchWrite_eq_run col data mode scanFails fails hdata, hexist]
  obtain ⟨h1, h2, h3⟩ := runChunks_noskip mode [] fails (chunksOf 500 data)
    ⟨col, 0, 0, 0, 0⟩ hns hnechunks
  have hskip : (runChunks mode [] fails (chunksOf 500 data) ⟨col, 0, 0, 0, 0⟩).skippedCount
      = 0 := by
    rw [runChunks_skippedCount, hjoin]
    have hfnil : data.filter (fun r => isSkipped mode [] r) = [] := by
      rw [List.filter_eq_nil_iff]
      intro a ha
      simp [isSkipped, hmu]
    simp [hfnil]
  have hcnt := runChunks_counts mode [] fails (chunksOf 500 data) ⟨col, 0, 0, 0, 0⟩
  rw [hjoin] at hcnt
  simp only [WriteOutcome.mk.injEq] at *
  refine ⟨hjoin, fun c hc => chunksOf_mem 500 data c hc, ?_, ?_, ?_, ?_, hskip⟩
  · rw [h1, chunksOf_500_length]
    simp
  · rw [h2]
    simp
  · rw [h3]
    simp
  · simp at h1 h2 h3 hcnt hskip
    omega

set_option maxRecDepth 40000 in
/-- Claim C2 counterexample: a 501-record call in update mode where all
keys already exist issues no commit at all, not ceil(501/500) = 2. -/
theorem claim2_counterexample :
    (batchWriteToFirestore [("a", [])]
        (List.replicate 501 ⟨"a", []⟩) .update false (fun _ => false)).commitsIssued = 0
    ∧ ((List.replicate 501 (⟨"a", []⟩ : Record)).length + 499) / 500 = 2 := by
  constructor <;> decide

set_option maxRecDepth 40000 in
/-- Claim C2 witness: the amended theorem evaluated on a concrete
501-record fresh-mode call in which the first commit fails. -/
theorem claim2_witness :
    (batchWriteToFirestore [] (List.replicate 501 ⟨"a", []⟩) .fresh false
        (fun j => j == 0)).commitsIssued
      = ((List.replicate 501 (⟨"a", []⟩ : Record)).length + 499) / 500
    ∧ (batchWriteToFirestore [] (List.replicate 501 ⟨"a", []⟩) .fresh false
        (fun j => j == 0)).errorCount
      = failedTotal (fun j => j == 0) 0
          ((chunksOf 500 (List.replicate 501 (⟨"a", []⟩ : Record))).map List.length)
    ∧ (batchWriteToFirestore [] (List.replicate 501 ⟨"a", []⟩) .fresh false
        (fun j => j == 0)).successCount
      + (batchWriteToFirestore [] (List.replicate 501 ⟨"a", []⟩) .fresh false
        (fun j => j == 0)).errorCount
      = (List.replicate 501 (⟨"a", []⟩ : Record)).length
    ∧ (batchWriteToFirestore [] (List.replicate 501 ⟨"a", []⟩) .fresh false
        (fun j => j == 0)).skippedCount = 0 := by
  have h := claim2_chunked_commits [] (List.replicate 501 ⟨"a", []⟩) .fresh false
    (fun j => j == 0) (Or.inl rfl) (by simp)
  exact ⟨h.2.2.1, h.2.2.2.1, h.2.2.2.2.2.1, h.2.2.2.2.2.2⟩

/-- Claim C3: in force mode every record is written regardless of prior
existence (the skipped counter stays 0 whatever the commit outcomes, and
with no commit failure every record lands in the success counter), the
write uses merge semantics, so a field present on the existing document
but absent from the new record keeps its old value; in fresh mode every
record is written with full-replace semantics, the stored document being
exactly the incoming data. Incoming ids are assumed distinct. -/
theorem claim3_force_fresh (col : Collection) (data : List Record)
    (scanFails : Bool) (fails : Nat → Bool)
    (hnd : (data.map Record.docId).Nodup) :
    (batchWriteToFirestore col data .force scanFails fails).skippedCount = 0
    ∧ (batchWriteToFirestore col data .fresh scanFails fails).skippedCount = 0
    ∧ (batchWriteToFirestore col data .force scanFails (fun _ => false)).successCount = data.length
    ∧ (batchWriteToFirestore col data .fresh scanFails (fun _ => false)).successCount = data.length
    ∧ (∀ r ∈ data, ∃ d,
        alookup r.docId (batchWriteToFirestore col data .force scanFails (fun _ => false)).col = some d
        ∧ (∀ f v, alookup f r.data = some v → alookup f d = some v)
        ∧ (∀ f, alookup f r.data = none →
            alookup f d = (alookup r.docId col).bind (fun old => alookup f old)))
    ∧ (∀ r ∈ data, alookup r.docId
        (batchWriteToFirestore col data .fresh scanFails (fun _ => false)).col = some r.data) := by
  by_cases hdata : data = []
  · subst hdata
    refine ⟨by simp [batchWriteToFirestore], by simp [batchWriteToFirestore],
      by simp [batchWriteToFirestore], by simp [batchWriteToFirestore],
      by simp, by simp⟩
  · have hjoin : joinAll (chunksOf 500 data) = data := joinAll_chunksOf 500 (by omega) data
    have hnechunks : ∀ c ∈ chunksOf 500 data, c ≠ [] :=
      fun c hc => (chunksOf_mem 500 data c hc).1
    have hskipOf : ∀ (mode : Mode) (fl : Nat → Bool), (mode == Mode.update) = false →
        (batchWriteToFirestore col data mode scanFails fl).skippedCount = 0 := by
      intro mode fl hmu
      rw [batchWrite_eq_run col data mode scanFails fl hdata, hmu]
      simp only [Bool.false_eq_true, if_false, runChunks_skippedCount, hjoin]
      have hfnil : data.filter (fun r => isSkipped mode [] r) = [] := by
        rw [List.filter_eq_nil_iff]
        intro a ha
        simp [isSkipped, hmu]
      simp [hfnil]
    have hsucOf : ∀ (mode : Mode), (mode == Mode.update) = false →
        (batchWriteToFirestore col data mode scanFails (fun _ => false)).successCount
          = data.length := by
      intro mode hmu
      rw [batchWrite_eq_run col data mode scanFails _ hdata, hmu]
      simp only [Bool.false_eq_true, if_false]
      have hns : ∀ r ∈ joinAll (chunksOf 500 data), isSkipped mode [] r = false := by
        intro r _
        simp only [isSkipped, hmu, Bool.false_and]
      obtain ⟨h1, h2, h3⟩ := runChunks_noskip mode [] (fun _ => false) (chunksOf 500 data)
        ⟨col, 0, 0, 0, 0⟩ hns hnechunks
      have hskip : (runChunks mode [] (fun _ => false) (chunksOf 500 data)
          ⟨col, 0, 0, 0, 0⟩).skippedCount = 0 := by
        rw [runChunks_skippedCount, hjoin]
        have hfnil : data.filter (fun r => isSkipped mode [] r) = [] := by
          rw [List.filter_eq_nil_iff]
          intro a ha
          simp [isSkipped, hmu]
        simp [hfnil]
      have hcnt := runChunks_counts mode [] (fun _ => false) (chunksOf 500 data)
        ⟨col, 0, 0, 0, 0⟩
      rw [hjoin] at hcnt
      rw [failedTotal_false] at h2
      simp at h1 h2 h3 hcnt hskip
      omega
    have hcolOf : ∀ (mode : Mode), (mode == Mode.update) = false →
        (batchWriteToFirestore col data mode scanFails (fun _ => false)).col
          = data.foldl (applyWrite (mode == Mode.force)) col := by
      intro mode hmu
      rw [batchWrite_eq_run col data mode scanFails _ hdata, hmu]
      simp only [Bool.false_eq_true, if_false]
      have hns : ∀ r ∈ joinAll (chunksOf 500 data), isSkipped mode [] r = false := by
        intro r _
        simp only [isSkipped, hmu, Bool.false_and]
      rw [runChunks_nofail_col mode [] (chunksOf 500 data) ⟨col, 0, 0, 0, 0⟩ hns, hjoin]
    refine ⟨hskipOf .force fails rfl, hskipOf .fresh fails rfl,
      hsucOf .force rfl, hsucOf .fresh rfl, ?_, ?_⟩
    · intro r hr
      have hcol := hcolOf .force rfl
      rw [hcol]
      have hlook := foldl_applyWrite_lookup_merge data col r hr hnd
      cases hold : alookup r.docId col with
      | some old =>
        rw [hold] at hlook
        refine ⟨mergeDoc old r.data, hlook, ?_, ?_⟩
        · intro f v hv
          exact mergeDoc_lookup_new old r.data f v hv
        · intro f hf
          rw [mergeDoc_lookup_old old r.data f hf]
          simp
      | none =>
        rw [hold] at hlook
        refine ⟨r.data, hlook, fun f v hv => hv, ?_⟩
        intro f hf
        simp [hf]
    · intro r hr
      have hcol := hcolOf .fresh rfl
      rw [hcol]
      exact foldl_applyWrite_lookup_plain data col r hr hnd

/-- Claim C3 witness: the theorem evaluated on a concrete collection and
two concrete records, one overwriting an existing document and one new. -/
theorem claim3_witness :
    (batchWriteToFirestore [("a", [("x", JVal.jstr "1"), ("y", JVal.jstr "2")])]
        [⟨"a", [("y", JVal.jstr "9")]⟩, ⟨"b", [("z", JVal.jstr "3")]⟩]
        .force false (fun _ => false)).skippedCount = 0
    ∧ (batchWriteToFirestore [("a", [("x", JVal.jstr "1"), ("y", JVal.jstr "2")])]
        [⟨"a", [("y", JVal.jstr "9")]⟩, ⟨"b", [("z", JVal.jstr "3")]⟩]
        .force false (fun _ => false)).successCount
      = ([⟨"a", [("y", JVal.jstr "9")]⟩, ⟨"b", [("z", JVal.jstr "3")]⟩] : List Record).length
    ∧ alookup "b" (batchWriteToFirestore [("a", [("x", JVal.jstr "1"), ("y", JVal.jstr "2")])]
        [⟨"a", [("y", JVal.jstr "9")]⟩, ⟨"b", [("z", JVal.jstr "3")]⟩]
        .fresh false (fun _ => false)).col = some [("z", JVal.jstr "3")] := by
  have h := claim3_force_fresh [("a", [("x", JVal.jstr "1"), ("y", JVal.jstr "2")])]
    [⟨"a", [("y", JVal.jstr "9")]⟩, ⟨"b", [("z", JVal.jstr "3")]⟩] false (fun _ => false)
    (by decide)
  exact ⟨h.1, h.2.2.1, h.2.2.2.2.2 ⟨"b", [("z", JVal.jstr "3")]⟩
    (List.mem_cons_of_mem _ (List.mem_cons_self _ _))⟩

/-- Accumulating the leading decimal digits of a character list. -/
def parseDigitsAux : Nat → List Char → Nat
  | acc, [] => acc
  | acc, c :: cs => if c.isDigit then parseDigitsAux (10 * acc + (c.toNat - 48)) cs else acc

/-- The longest leading run of decimal digits, none when there is no
leading digit. -/
def leadingDigits : List Char → Option Nat
  | [] => none
  | c :: cs => if c.isDigit then some (parseDigitsAux (c.toNat - 48) cs) else none

/-- JavaScript parseInt in base 10 on a string: skip leading whitespace,
an optional sign, then the longest digit prefix; none models NaN. The
automatic hexadecimal 0x prefix of parseInt is not modelled; it changes
only which integer is produced, never whether the clamp below applies. -/
def jsParseInt (s : String) : Option Int :=
  match s.toList.dropWhile Char.isWhitespace with
  | '-' :: rest => (leadingDigits rest).map (fun n => -(n : Int))
  | '+' :: rest => (leadingDigits rest).map (fun n => (n : Int))
  | cs => (leadingDigits cs).map (fun n => (n : Int))

/-- parseInt(page) || 1 : NaN and 0 fall back to the default 1. An
absent query parameter parses to NaN as well. -/
def pageOrDefault (v : Option String) : Int :=
  match v.bind jsParseInt with
  | none => 1
  | some i => if i = 0 then 1 else i

/-- page = Math.max(1, parseInt(page) || 1). -/
def sanitizePage (v : Option String) : Int :=
  max 1 (pageOrDefault v)

/-- parseInt(limit) || 10 : NaN and 0 fall back to the default 10. -/
def limitOrDefault (v : Option String) : Int :=
  match v.bind jsParseInt with
  | none => 10
  | some i => if i = 0 then 10 else i

/-- limit = Math.min(100, Math.max(1, parseInt(limit) || 10)). -/
def sanitizeLimit (v : Option String) : Int :=
  min 100 (max 1 (limitOrDefault v))

/-- The pagination response shape {page, limit, total, totalPages, data}
of the storage-backed API. -/
structure Paginated (α : Type) where
  page : Int
  limit : Int
  total : Nat
  totalPages : Nat
  data : List α

/-- The paginate helper of src/unnamed/part_003: sanitize page and
limit, then slice the array from (page-1)*limit for limit elements.
After the clamps page and limit are at least 1, so the start index
(page-1)*limit is computed on Nat exactly as the source computes it on
JavaScript numbers, and slice(start, start+limit) is drop then take. -/
def paginate (arr : List α) (pageQ limitQ : Option String) : Paginated α :=
  let page := sanitizePage pageQ
  let limit := sanitizeLimit limitQ
  let limitN := limit.toNat
  let startN := (page.toNat - 1) * limitN
  ⟨page, limit, arr.length, (arr.length + limitN - 1) / limitN, (arr.drop startN).take limitN⟩

/-- Claim C4: whatever the page and limit inputs (missing, negative,
oversized, zero or non-numeric), the effective limit echoed in the
response lies in [1,100] and the effective page is at least 1; in
particular limit=-5 yields 1 and limit=1000 yields 100. -/
theorem claim4_pagination_clamped :
    (∀ {α : Type} (arr : List α) (pv lv : Option String),
      1 ≤ (paginate arr pv lv).limit ∧ (paginate arr pv lv).limit ≤ 100
      ∧ 1 ≤ (paginate arr pv lv).page)
    ∧ (paginate ([] : List Nat) none (some "-5")).limit = 1
    ∧ (paginate ([] : List Nat) none (some "1000")).limit = 100 := by
  refine ⟨?_, by decide, by decide⟩
  intro α arr pv lv
  refine ⟨?_, ?_, ?_⟩ <;>
    · simp only [paginate, sanitizeLimit, sanitizePage]
      omega

/-- Claim C5: the paginated response reports total = number of items,
totalPages = ceil(total / limit), and data holds exactly the items at
positions (page-1)*limit through page*limit-1 (truncated at the end of
the array); with 25 items and page=2, limit=10 it returns exactly the 10
items at positions 10 through 19, total 25 and totalPages 3. -/
theorem claim5_pagination_window :
    (∀ {α : Type} (arr : List α) (pv lv : Option String) (i : Nat),
      (paginate arr pv lv).total = arr.length
      ∧ (paginate arr pv lv).totalPages
          = (arr.length + (paginate arr pv lv).limit.toNat - 1)
            / (paginate arr pv lv).limit.toNat
      ∧ (paginate arr pv lv).data[i]?
          = if i < (paginate arr pv lv).limit.toNat
            then arr[((paginate arr pv lv).page.toNat - 1)
                * (paginate arr pv lv).limit.toNat + i]?
            else none)
    ∧ (paginate (List.range 25) (some "2") (some "10")).data.length = 10
    ∧ (paginate (List.range 25) (some "2") (some "10")).total = 25
    ∧ (paginate (List.range 25) (some "2") (some "10")).totalPages = 3
    ∧ (paginate (List.range 25) (some "2") (some "10")).data
        = [10, 11, 12, 13, 14, 15, 16, 17, 18, 19] := by
  refine ⟨?_, by decide, by decide, by decide, by decide⟩
  intro α arr pv lv i
  refine ⟨by simp [paginate], by simp [paginate], ?_⟩
  simp [paginate, List.getElem?_take, List.getElem?_drop]

/-- An incoming HTTP request as the Express app observes it: method,
path, and headers with lowercased names, as Node delivers them. -/
structure HttpRequest where
  method : String
  path : String
  headers : List (String × String)

/-- The observable part of a JSON response: HTTP status, the success
flag and the message string of the body. -/
structure HttpResponse where
  status : Nat
  success : Bool
  message : String
deriving DecidableEq

/-- The fixed 403 body of the verifyAPIKey middleware. It is a constant:
it does not mention the configured key. -/
def forbiddenResponse : HttpResponse :=
  ⟨403, false, "Forbidden — Invalid or missing API key"⟩

/-- The /health handler body (its timestamp field, wall-clock time, is
not modelled). -/
def healthResponse : HttpResponse :=
  ⟨200, true, "API is running"⟩

/-- The middleware test !receivedKey || receivedKey !== expectedKey:
blocked when the x-api-key header is absent, empty, or different from
the configured secret. -/
def apiKeyBlocked (expectedKey : String) (headers : List (String × String)) : Bool :=
  match alookup "x-api-key" headers with
  | none => true
  | some received => received == "" || received != expectedKey

/-- The verifyAPIKey middleware as mounted in src/unnamed/part_003 and
part_002: app.use(verifyAPIKey) is registered before every route,
including /health, so every request is gated; a blocked request is
answered with the fixed 403 body and never reaches the routes. -/
def verifyAPIKey (expectedKey : String) (routes : HttpRequest → HttpResponse)
    (req : HttpRequest) : HttpResponse :=
  if apiKeyBlocked expectedKey req.headers then forbiddenResponse else routes req

/-- Claim C6 (amended): every request whose x-api-key header is absent,
empty, or different from the configured secret is answered 403 with the
fixed {success:false, message} body, whatever handler is mounted behind
the middleware; the body is a constant that does not depend on the
secret. A request carrying the correct nonempty key passes through to
the routes. This applies to every path, /health included: the
middleware is registered before the /health route, so /health is not
exempt. -/
theorem claim6_api_key_gate (expectedKey : String)
    (routes : HttpRequest → HttpResponse) (req : HttpRequest) :
    (alookup "x-api-key" req.headers = none →
      verifyAPIKey expectedKey routes req = forbiddenResponse)
    ∧ (∀ v, alookup "x-api-key" req.headers = some v → (v = "" ∨ v ≠ expectedKey) →
      verifyAPIKey expectedKey routes req = forbiddenResponse)
    ∧ (∀ v, alookup "x-api-key" req.headers = some v → v ≠ "" → v = expectedKey →
      verifyAPIKey expectedKey routes req = routes req)
    ∧ forbiddenResponse.status = 403
    ∧ forbiddenResponse.success = false := by
  refine ⟨?_, ?_, ?_, rfl, rfl⟩
  · intro h
    rw [verifyAPIKey, if_pos]
    rw [apiKeyBlocked, h]
  · intro v hv hbad
    rw [verifyAPIKey, if_pos]
    rw [apiKeyBlocked, hv]
    rcases hbad with h | h
    · subst h
      rfl
    · simp [h]
  · intro v hv hne he
    rw [verifyAPIKey, if_neg]
    rw [apiKeyBlocked, hv]
    subst he
    simp [hne]

/-- Claim C6 counterexample: a GET /health request with no headers at
all is answered 403 by the gate, not by the health handler, although the
health handler itself would answer success: /health is not exempt from
the API key requirement. -/
theorem claim6_counterexample :
    verifyAPIKey "secret-key" (fun _ => healthResponse) ⟨"GET", "/health", []⟩
      = forbiddenResponse
    ∧ forbiddenResponse.status = 403
    ∧ forbiddenResponse.success = false
    ∧ healthResponse.success = true := by
  decide

/-- Claim C6 witness: the amended theorem evaluated on a concrete
request with a wrong key and one with the right key. -/
theorem claim6_witness :
    verifyAPIKey "k1" (fun _ => healthResponse)
      ⟨"GET", "/getCategory", [("x-api-key", "wrong")]⟩ = forbiddenResponse
    ∧ verifyAPIKey "k1" (fun _ => healthResponse)
      ⟨"GET", "/getCategory", [("x-api-key", "k1")]⟩ = healthResponse :=
  ⟨(claim6_api_key_gate "k1" (fun _ => healthResponse)
      ⟨"GET", "/getCategory", [("x-api-key", "wrong")]⟩).2.1 "wrong" rfl
      (Or.inr (by decide)),
   (claim6_api_key_gate "k1" (fun _ => healthResponse)
      ⟨"GET", "/getCategory", [("x-api-key", "k1")]⟩).2.2.1 "k1" rfl
      (by decide) rfl⟩

/-- Array.isArray as a partial projection. -/
def asArr : JVal → Option (List JVal)
  | .jarr a => some a
  | _ => none

/-- The fixed priority key list of extractArrayFromJSON in
src/unnamed/part_000 (the older migrate-to-firestore.js variant appends
"records"; no claim depends on the content of the list). -/
def possibleKeys : List String :=
  ["data", "items", "results", "categories", "prompts", "promptDetails", "list"]

/-- One loop of extractArrayFromJSON: walk a key list, return the first
key whose property value is an array. Used for the priority pass and,
with the object keys themselves, for the fallback pass. -/
def findArrayInKeys (fields : List (String × JVal)) : List String → Option (List JVal)
  | [] => none
  | k :: ks =>
    match (alookup k fields).bind asArr with
    | some a => some a
    | none => findArrayInKeys fields ks

/-- The extractor of the v2 migration script: an array is returned
directly; an object is searched by the priority keys, then by all its
own keys; anything else, or an object without an array-valued property,
is an error (the spec maps both messages to MalformedInput). -/
def extractArrayFromJSON (data : JVal) (fileName : String) : Except String (List JVal) :=
  match data with
  | .jarr a => .ok a
  | .jobj fields =>
    (match findArrayInKeys fields possibleKeys with
     | some a => .ok a
     | none =>
       match findArrayInKeys fields (fields.map Prod.fst) with
       | some a => .ok a
       | none => .error ("No array found in JSON file: " ++ fileName))
  | _ => .error ("Invalid JSON structure in file: " ++ fileName)

/-- Spec-side description of the fallback pass: the value of the first
property whose value is an array, walking the properties directly. -/
def firstArrayProp : List (String × JVal) → Option (List JVal)
  | [] => none
  | p :: rest =>
    match asArr p.2 with
    | some a => some a
    | none => firstArrayProp rest

/-- A successful lookup comes from an entry of the list. -/
theorem alookup_mem {β : Type} (l : List (String × β)) (k : String) (v : β)
    (h : alookup k l = some v) : (k, v) ∈ l := by
  induction l with
  | nil => cases h
  | cons e rest ih =>
    obtain ⟨k1, v1⟩ := e
    by_cases hk : k = k1
    · subst hk
      rw [alookup, if_pos rfl] at h
      cases h
      exact List.mem_cons_self _ _
    · rw [alookup, if_neg hk] at h
      exact List.mem_cons_of_mem _ (ih h)

/-- If no property value is an array, no key pass finds one. -/
theorem findArrayInKeys_none (fields : List (String × JVal))
    (h : ∀ p ∈ fields, asArr p.2 = none) (ks : List String) :
    findArrayInKeys fields ks = none := by
  induction ks with
  | nil => rfl
  | cons k ks ih =>
    rw [findArrayInKeys]
    cases hl : alookup k fields with
    | none => simpa [hl] using ih
    | some v =>
      have hv := h (k, v) (alookup_mem fields k v hl)
      simpa [hl, hv] using ih

/-- A leading entry whose key occurs in none of the scanned keys does
not change the key pass. -/
theorem findArrayInKeys_cons_notmem (k : String) (v : JVal)
    (rest : List (String × JVal)) (ks : List String) (hk : k ∉ ks) :
    findArrayInKeys ((k, v) :: rest) ks = findArrayInKeys rest ks := by
  induction ks with
  | nil => rfl
  | cons k1 ks ih =>
    have hne : k1 ≠ k := by
      intro he
      exact hk (he ▸ List.mem_cons_self _ _)
    have hml : alookup k1 ((k, v) :: rest) = alookup k1 rest := by
      rw [alookup, if_neg hne]
    simp only [findArrayInKeys, hml]
    cases hl : (alookup k1 rest).bind asArr with
    | none => simpa [hl] using ih (fun hm => hk (List.mem_cons_of_mem _ hm))
    | some a => simp [hl]

/-- On an object with unique keys the fallback pass is exactly the first
array-valued property. -/
theorem findArrayInKeys_keys_eq (fields : List (String × JVal))
    (hnd : (fields.map Prod.fst).Nodup) :
    findArrayInKeys fields (fields.map Prod.fst) = firstArrayProp fields := by
  induction fields with
  | nil => rfl
  | cons p rest ih =>
    obtain ⟨k, v⟩ := p
    rw [List.map_cons, List.nodup_cons] at hnd
    have hml : alookup k ((k, v) :: rest) = some v := by
      rw [alookup, if_pos rfl]
    simp only [findArrayInKeys, firstArrayProp, hml, Option.some_bind]
    cases hv : asArr v with
    | some a => simp [hv]
    | none =>
      simp only [hv]
      rw [findArrayInKeys_cons_notmem k v rest _ hnd.1, ih hnd.2]

/-- The first-array-valued-property pass fails exactly when no property
value is an array. -/
theorem firstArrayProp_none_iff (fields : List (String × JVal)) :
    firstArrayProp fields = none ↔ ∀ p ∈ fields, asArr p.2 = none := by
  induction fields with
  | nil => simp [firstArrayProp]
  | cons p rest ih =>
    rw [firstArrayProp]
    cases hv : asArr p.2 with
    | some a =>
      simp only [hv]
      constructor
      · intro h
        cases h
      · intro h
        have := h p (List.mem_cons_self _ _)
        rw [this] at hv
        cases hv
    | none =>
      simp only [hv]
      rw [ih]
      constructor
      · intro h q hq
        rcases List.mem_cons.mp hq with hq | hq
        · subst hq
          exact hv
        · exact h q hq
      · intro h q hq
        exact h q (List.mem_cons_of_mem _ hq)

/-- Claim C7: the extractor returns an array argument unchanged; on an
object (with unique keys, as JSON.parse produces) it returns the array
under the first matching priority key, otherwise the value of the first
array-valued property; it errors exactly when the value is an object
with no array-valued property, or neither an array nor an object — both
errors are the MalformedInput condition of the spec. -/
theorem claim7_extract_array :
    (∀ (a : List JVal) (fn : String), extractArrayFromJSON (.jarr a) fn = .ok a)
    ∧ (∀ (fields : List (String × JVal)) (fn : String), (fields.map Prod.fst).Nodup →
        ((∃ e, extractArrayFromJSON (.jobj fields) fn = .error e)
          ↔ ∀ p ∈ fields, asArr p.2 = none))
    ∧ (∀ (fields : List (String × JVal)) (fn : String) (a : List JVal),
        findArrayInKeys fields possibleKeys = some a →
        extractArrayFromJSON (.jobj fields) fn = .ok a)
    ∧ (∀ (fields : List (String × JVal)) (fn : String), (fields.map Prod.fst).Nodup →
        findArrayInKeys fields possibleKeys = none →
        extractArrayFromJSON (.jobj fields) fn
          = match firstArrayProp fields with
            | some a => .ok a
            | none => .error ("No array found in JSON file: " ++ fn))
    ∧ (∀ (v : JVal) (fn : String), (∀ a, v ≠ .jarr a) → (∀ fs, v ≠ .jobj fs) →
        extractArrayFromJSON v fn = .error ("Invalid JSON structure in file: " ++ fn)) := by
  refine ⟨fun a fn => rfl, ?_, ?_, ?_, ?_⟩
  · intro fields fn hnd
    constructor
    · rintro ⟨e, he⟩ p hp
      rw [extractArrayFromJSON] at he
      cases hk : findArrayInKeys fields possibleKeys with
      | some a => rw [hk] at he; cases he
      | none =>
        rw [hk] at he
        cases hf : findArrayInKeys fields (fields.map Prod.fst) with
        | some a => rw [hf] at he; cases he
        | none =>
          rw [findArrayInKeys_keys_eq fields hnd] at hf
          exact (firstArrayProp_none_iff fields).mp hf p hp
    · intro hall
      refine ⟨"No array found in JSON file: " ++ fn, ?_⟩
      rw [extractArrayFromJSON,
        findArrayInKeys_none fields hall possibleKeys,
        findArrayInKeys_none fields hall (fields.map Prod.fst)]
  · intro fields fn a hk
    rw [extractArrayFromJSON, hk]
  · intro fields fn hnd hk
    rw [extractArrayFromJSON, hk, findArrayInKeys_keys_eq fields hnd]
  · intro v fn harr hobj
    cases v <;> first
      | rfl
      | exact absurd rfl (harr _)
      | exact absurd rfl (hobj _)

/-- Claim C7 witness: the theorem evaluated on a direct array, on an
object whose array sits under the priority key items, and on a
non-container value. -/
theorem claim7_witness :
    extractArrayFromJSON (.jarr [JVal.jnum 7]) "f.json" = .ok [JVal.jnum 7]
    ∧ extractArrayFromJSON
        (.jobj [("x", JVal.jnull), ("items", JVal.jarr [JVal.jnum 1]),
          ("data", JVal.jstr "s")]) "f.json" = .ok [JVal.jnum 1]
    ∧ extractArrayFromJSON (.jstr "oops") "f.json"
        = .error ("Invalid JSON structure in file: " ++ "f.json") :=
  ⟨claim7_extract_array.1 [JVal.jnum 7] "f.json",
   claim7_extract_array.2.2.1
     [("x", JVal.jnull), ("items", JVal.jarr [JVal.jnum 1]), ("data", JVal.jstr "s")]
     "f.json" [JVal.jnum 1] rfl,
   claim7_extract_array.2.2.2.2 (.jstr "oops") "f.json"
     (fun a h => JVal.noConfusion h) (fun fs h => JVal.noConfusion h)⟩

/-- JavaScript object spread with one overriding entry: the result holds
a single binding of the key, carrying the new value, after the other
fields. Models the object literals of the migration scripts, where a
later spread entry wins. -/
def setField (d : Doc) (k : String) (v : JVal) : Doc :=
  d.filter (fun p => p.fst != k) ++ [(k, v)]

theorem setField_lookup_self (d : Doc) (k : String) (v : JVal) :
    alookup k (setField d k v) = some v := by
  unfold setField
  rw [alookup_append]
  have hdrop : alookup k (d.filter (fun p => p.fst != k)) = none := by
    apply alookup_filter_drop
    intro w _
    simp
  rw [hdrop]
  simp [alookup]

theorem setField_lookup_ne (d : Doc) (k : String) (v : JVal) (k1 : String)
    (h : k1 ≠ k) : alookup k1 (setField d k v) = alookup k1 d := by
  unfold setField
  rw [alookup_append]
  have hkeep : alookup k1 (d.filter (fun p => p.fst != k)) = alookup k1 d := by
    apply alookup_filter_keep
    intro w _
    simp [h]
  rw [hkeep]
  cases hl : alookup k1 d <;> simp [alookup, h]

/-- JavaScript truthiness filter on an optional value: an absent or
falsy value yields none. -/
def jsTruthyVal (v : Option JVal) : Option JVal :=
  match v with
  | some w => if jsFalsy w then none else some w
  | none => none

/-- item._id || item.id of the v2 migration item processing. -/
def rawDocId (fields : List (String × JVal)) : Option JVal :=
  match jsTruthyVal (alookup "_id" fields) with
  | some v => some v
  | none => alookup "id" fields

/-- The document id finally used for an item: the truthiness guard
if (!docId) discards a falsy result, and ids are strings (Firestore
document ids; the data files use string ids). -/
def docIdOf (fields : List (String × JVal)) : Option String :=
  match jsTruthyVal (rawDocId fields) with
  | some (JVal.jstr s) => some s
  | _ => none

/-- const { _id, id, ...cleanData } = item. -/
def cleanFields (fields : List (String × JVal)) : Doc :=
  fields.filter (fun p => p.fst != "_id" && p.fst != "id")

/-- The createdAt and updatedAt serverTimestamp fields every migrated
document receives, spread last. -/
def withTimestamps (d : Doc) : Doc :=
  setField (setField d "createdAt" JVal.serverTimestamp) "updatedAt" JVal.serverTimestamp

theorem withTimestamps_lookup_other (d : Doc) (k : String)
    (h1 : k ≠ "createdAt") (h2 : k ≠ "updatedAt") :
    alookup k (withTimestamps d) = alookup k d := by
  unfold withTimestamps
  rw [setField_lookup_ne _ _ _ _ h2, setField_lookup_ne _ _ _ _ h1]

/-- One category item of migrateCategories: items without a truthy id
are dropped with a warning, the others become {docId, data}. -/
def recordOfCategoryItem (fields : List (String × JVal)) : Option Record :=
  match docIdOf fields with
  | none => none
  | some did => some ⟨did, withTimestamps (cleanFields fields)⟩

/-- One prompt item of migratePrompts: as for categories, but when a
category id was resolved for the file, a categoryId field is spread in
before the timestamps. -/
def recordOfPromptItem (categoryId : Option String)
    (fields : List (String × JVal)) : Option Record :=
  match docIdOf fields with
  | none => none
  | some did =>
    match categoryId with
    | some cid =>
      some ⟨did, withTimestamps (setField (cleanFields fields) "categoryId" (JVal.jstr cid))⟩
    | none => some ⟨did, withTimestamps (cleanFields fields)⟩

/-- One prompt-detail item of migratePromptDetails: identical shape to
categories, the document id being the owning prompt id. -/
def recordOfDetailItem (fields : List (String × JVal)) : Option Record :=
  match docIdOf fields with
  | none => none
  | some did => some ⟨did, withTimestamps (cleanFields fields)⟩

/-- Case-insensitive prefix test on character lists. -/
def matchesCI : List Char → List Char → Bool
  | [], _ => true
  | _ :: _, [] => false
  | p :: ps, c :: cs => (p.toLower == c.toLower) && matchesCI ps cs

/-- Case-insensitive suffix test on character lists. -/
def trailingMatchCI (pat s : List Char) : Bool :=
  matchesCI pat.reverse s.reverse

/-- The regex fileName.match(/prompts_(.+)\.json$/i) of migratePrompts:
the leftmost case-insensitive occurrence of prompts_ followed by at
least one character and a final case-insensitive .json suffix; the
capture keeps its original case. -/
def scanPromptsName : List Char → Option (List Char)
  | [] => none
  | c :: cs =>
    if matchesCI "prompts_".toList (c :: cs) then
      (if decide (5 < ((c :: cs).drop 8).length)
          && trailingMatchCI ".json".toList ((c :: cs).drop 8) then
        some (((c :: cs).drop 8).take (((c :: cs).drop 8).length - 5))
      else scanPromptsName cs)
    else scanPromptsName cs

/-- Category name extraction from a prompt file name. -/
def extractPromptsCategoryName (fileName : String) : Option String :=
  (scanPromptsName fileName.toList).map (fun cs => String.mk cs)

/-- JavaScript a || b on optional strings: the empty string is falsy. -/
def jsOrStr (a b : Option String) : Option String :=
  match a with
  | some s => if s = "" then b else some s
  | none => b

/-- categoryMapping[categoryName] || categoryMapping[categoryName.toLowerCase()]. -/
def lookupCategoryId (mapping : List (String × String)) (nm : String) : Option String :=
  jsOrStr (alookup nm mapping) (alookup nm.toLower mapping)

/-- The category id that actually gets stamped: the spread
...(categoryId && { categoryId }) adds the field only when the resolved
id is truthy. -/
def effCategoryId (mapping : List (String × String)) (nm : String) : Option String :=
  match lookupCategoryId mapping nm with
  | some s => if s = "" then none else some s
  | none => none

/-- The records migratePrompts emits for one source file, given the
name-to-id mapping built from the categories collection. -/
def promptRecordsForFile (mapping : List (String × String)) (fileName : String)
    (items : List (List (String × JVal))) : List Record :=
  match extractPromptsCategoryName fileName with
  | some nm => items.filterMap (recordOfPromptItem (effCategoryId mapping nm))
  | none => items.filterMap (recordOfPromptItem none)

/-- Claim C8 (amended): for a file matching the prompts pattern, the
name is looked up exact-match first and lowercased second; when a truthy
id is found, every emitted record carries categoryId equal to it; when
none is found, the file is still processed (nothing is fatal) and no
categoryId is added by the linker — but a categoryId field already
present in a source item survives into the emitted record, so such a
record is not written without a categoryId field. -/
theorem claim8_category_link (mapping : List (String × String)) (fileName : String)
    (items : List (List (String × JVal))) (nm : String)
    (hmatch : extractPromptsCategoryName fileName = some nm) :
    (∀ cid, alookup nm mapping = some cid → cid ≠ "" → effCategoryId mapping nm = some cid)
    ∧ (alookup nm mapping = none →
        effCategoryId mapping nm
          = match alookup nm.toLower mapping with
            | some s => if s = "" then none else some s
            | none => none)
    ∧ (∀ cid, effCategoryId mapping nm = some cid →
        ∀ r ∈ promptRecordsForFile mapping fileName items,
          alookup "categoryId" r.data = some (JVal.jstr cid))
    ∧ (effCategoryId mapping nm = none →
        promptRecordsForFile mapping fileName items
          = items.filterMap (recordOfPromptItem none))
    ∧ (∀ (fields : List (String × JVal)) (r : Record),
        recordOfPromptItem none fields = some r →
        alookup "categoryId" r.data = alookup "categoryId" (cleanFields fields)) := by
  have heq : promptRecordsForFile mapping fileName items
      = items.filterMap (recordOfPromptItem (effCategoryId mapping nm)) := by
    rw [promptRecordsForFile, hmatch]
  refine ⟨?_, ?_, ?_, ?_, ?_⟩
  · intro cid h hne
    simp [effCategoryId, lookupCategoryId, jsOrStr, h, hne]
  · intro h
    simp [effCategoryId, lookupCategoryId, jsOrStr, h]
  · intro cid hcid r hr
    rw [heq, hcid] at hr
    obtain ⟨fields, _, hf⟩ := List.mem_filterMap.mp hr
    rw [recordOfPromptItem] at hf
    cases hd : docIdOf fields with
    | none => rw [hd] at hf; cases hf
    | some did =>
      rw [hd] at hf
      cases hf
      rw [withTimestamps_lookup_other _ _ (by decide) (by decide)]
      exact setField_lookup_self _ _ _
  · intro h
    rw [heq, h]
  · intro fields r hf
    rw [recordOfPromptItem] at hf
    cases hd : docIdOf fields with
    | none => rw [hd] at hf; cases hf
    | some did =>
      rw [hd] at hf
      cases hf
      exact withTimestamps_lookup_other _ _ (by decide) (by decide)

/-- Claim C8 counterexample: with no mapping match, a record whose
source item itself carries a categoryId field is emitted with that
field, so it is not written without a categoryId field. -/
theorem claim8_counterexample :
    extractPromptsCategoryName "prompts_Music.json" = some "Music"
    ∧ effCategoryId [] "Music" = none
    ∧ (promptRecordsForFile [] "prompts_Music.json"
        [[("_id", JVal.jstr "x"), ("categoryId", JVal.jstr "z")]]).map
        (fun r => alookup "categoryId" r.data)
      = [some (JVal.jstr "z")] :=
  ⟨rfl, rfl, rfl⟩

/-- Claim C8 witness: the amended theorem evaluated on a mapping with an
exact match and one concrete item. -/
theorem claim8_witness :
    effCategoryId [("Music", "cat9")] "Music" = some "cat9"
    ∧ alookup "categoryId"
        (Record.data ⟨"p1", withTimestamps (setField
          (cleanFields [("_id", JVal.jstr "p1"), ("t", JVal.jstr "hello")])
          "categoryId" (JVal.jstr "cat9"))⟩)
      = some (JVal.jstr "cat9") := by
  have h := claim8_category_link [("Music", "cat9")] "prompts_Music.json"
    [[("_id", JVal.jstr "p1"), ("t", JVal.jstr "hello")]] "Music" rfl
  have h1 : effCategoryId [("Music", "cat9")] "Music" = some "cat9" :=
    h.1 "cat9" rfl (by decide)
  exact ⟨h1, h.2.2.1 "cat9" h1 _ (List.mem_cons_self _ _)⟩

/-- The validated configuration blob: getConfig requires the parsed
config.json to carry categoryMap and promptDetailsFiles (a fetch whose
download, parse or validation fails is modelled as an absent result). -/
structure Config where
  categoryMap : List (String × String)
  promptDetailsFiles : List String
deriving DecidableEq

/-- The module-level mutable state of the API: configCache and
configLastFetched (milliseconds). -/
structure ConfigState where
  cache : Option Config
  lastFetched : Option Nat
deriving DecidableEq

/-- CONFIG_CACHE_TTL = 5 * 60 * 1000. -/
def CONFIG_CACHE_TTL : Nat := 5 * 60 * 1000

/-- configCache && configLastFetched && (now - configLastFetched <
CONFIG_CACHE_TTL): the cached value is served while it is fresh. A
timestamp of 0 is falsy in JavaScript, hence the t != 0 conjunct;
truncated Nat subtraction agrees with the JavaScript comparison also
when now < t, both being below the TTL. -/
def cacheFresh (st : ConfigState) (now : Nat) : Bool :=
  match st.cache, st.lastFetched with
  | some _, some t => t != 0 && decide (now - t < CONFIG_CACHE_TTL)
  | _, _ => false

/-- The refresh path of getConfig: a successful fetch replaces the
cache and the timestamp; a failed fetch serves the stale cache when one
exists and otherwise propagates the failure (the thrown error is the
none result). -/
def tryFetchConfig (st : ConfigState) (now : Nat) (fetch : Option Config) :
    Option Config × ConfigState :=
  match fetch with
  | some cfg => (some cfg, ⟨some cfg, some now⟩)
  | none =>
    match st.cache with
    | some c => (some c, st)
    | none => (none, st)

/-- getConfig of src/unnamed/part_003: one call observed as a function
of the cache state, the current time, and the outcome the fetch WOULD
have (the fetch is performed only on the stale path). -/
def getConfig (st : ConfigState) (now : Nat) (fetch : Option Config) :
    Option Config × ConfigState :=
  if cacheFresh st now then (st.cache, st) else tryFetchConfig st now fetch

/-- Claim C9: a cache fetched less than five minutes ago is served
without any refresh (the result does not depend on the fetch outcome);
on expiry the refresh is attempted lazily and a successful one replaces
cache and timestamp; a failed refresh serves the last-known cached
value when one exists; and the call fails exactly when the refresh
fails and no cached value exists. -/
theorem claim9_config_cache :
    (∀ (st : ConfigState) (now : Nat) (fetch : Option Config) (c : Config) (t : Nat),
      st.cache = some c → st.lastFetched = some t → t ≠ 0 →
      now - t < CONFIG_CACHE_TTL → getConfig st now fetch = (some c, st))
    ∧ (∀ (st : ConfigState) (now : Nat) (cfg : Config), cacheFresh st now = false →
      getConfig st now (some cfg) = (some cfg, ⟨some cfg, some now⟩))
    ∧ (∀ (st : ConfigState) (now : Nat) (c : Config), cacheFresh st now = false →
      st.cache = some c → getConfig st now none = (some c, st))
    ∧ (∀ (st : ConfigState) (now : Nat) (fetch : Option Config),
      (getConfig st now fetch).fst = none ↔ st.cache = none ∧ fetch = none) := by
  refine ⟨?_, ?_, ?_, ?_⟩
  · intro st now fetch c t h1 h2 h3 h4
    have hf : cacheFresh st now = true := by
      rw [cacheFresh, h1, h2]
      simp [h3, h4]
    rw [getConfig, if_pos hf, h1]
  · intro st now cfg hf
    rw [getConfig, if_neg (by simp [hf]), tryFetchConfig.eq_def]
  · intro st now c hf hc
    rw [getConfig, if_neg (by simp [hf]), tryFetchConfig.eq_def, hc]
  · intro st now fetch
    by_cases hf : cacheFresh st now = true
    · rw [getConfig, if_pos hf]
      cases hc : st.cache with
      | none =>
        simp [cacheFresh, hc] at hf
      | some c => simp [hc]
    · rw [getConfig, if_neg hf, tryFetchConfig.eq_def]
      cases hfe : fetch with
      | some cfg => simp
      | none =>
        cases hc : st.cache with
        | none => simp [hc]
        | some c => simp [hc]

/-- Claim C9 witness: the theorem evaluated at concrete states and
times: serving a fresh cache without fetching, refreshing an expired
cache, serving a stale cache on a failed refresh, and failing only with
no cache and no fetch result. -/
theorem claim9_witness :
    getConfig ⟨some ⟨[("c1", "f1.json")], ["d1.json"]⟩, some 1000⟩ 2000 none
      = (some ⟨[("c1", "f1.json")], ["d1.json"]⟩,
         ⟨some ⟨[("c1", "f1.json")], ["d1.json"]⟩, some 1000⟩)
    ∧ getConfig ⟨some ⟨[("c1", "f1.json")], ["d1.json"]⟩, some 1000⟩ 400000
        (some ⟨[], []⟩)
      = (some ⟨[], []⟩, ⟨some ⟨[], []⟩, some 400000⟩)
    ∧ getConfig ⟨some ⟨[("c1", "f1.json")], ["d1.json"]⟩, some 1000⟩ 400000 none
      = (some ⟨[("c1", "f1.json")], ["d1.json"]⟩,
         ⟨some ⟨[("c1", "f1.json")], ["d1.json"]⟩, some 1000⟩)
    ∧ (getConfig ⟨none, none⟩ 5 none).fst = none :=
  ⟨claim9_config_cache.1 _ 2000 none _ 1000 rfl rfl (by decide) (by decide),
   claim9_config_cache.2.1 _ 400000 ⟨[], []⟩ (by decide),
   claim9_config_cache.2.2.1 _ 400000 _ (by decide) rfl,
   (claim9_config_cache.2.2.2 ⟨none, none⟩ 5 none).mpr ⟨rfl, rfl⟩⟩

/-- The writer counters always account for exactly the records it was
given: every record is either skipped, or part of a succeeding commit,
or part of a failing commit. -/
theorem batchWrite_counts_sum (col : Collection) (rl : List Record)
    (mode : Mode) (scanFails : Bool) (fails : Nat → Bool) :
    (batchWriteToFirestore col rl mode scanFails fails).successCount
    + (batchWriteToFirestore col rl mode scanFails fails).errorCount
    + (batchWriteToFirestore col rl mode scanFails fails).skippedCount = rl.length := by
  by_cases h : rl = []
  · subst h
    simp [batchWriteToFirestore]
  · rw [batchWrite_eq_run _ _ _ _ _ h]
    have hcnt := runChunks_counts mode
      (if mode == Mode.update then getExistingDocIds col scanFails else []) fails
      (chunksOf 500 rl) ⟨col, 0, 0, 0, 0⟩
    rw [joinAll_chunksOf 500 (by omega)] at hcnt
    simp at hcnt ⊢
    omega

/-- Claim C10: an input record with neither an _id nor an id field is
emitted by none of the three v2 migrations (categories, prompts with or
without a linked category, prompt details), so it reaches none of the
three counters of the writer, whose counts always sum to the number of
records it was given; a one-item input without ids therefore yields
counts summing to 0, strictly less than the input length 1. -/
theorem claim10_missing_id (fields : List (String × JVal))
    (h1 : alookup "_id" fields = none) (h2 : alookup "id" fields = none) :
    recordOfCategoryItem fields = none
    ∧ (∀ cid : Option String, recordOfPromptItem cid fields = none)
    ∧ recordOfDetailItem fields = none
    ∧ (∀ (col : Collection) (rl : List Record) (mode : Mode) (scanFails : Bool)
        (fails : Nat → Bool),
        (batchWriteToFirestore col rl mode scanFails fails).successCount
        + (batchWriteToFirestore col rl mode scanFails fails).errorCount
        + (batchWriteToFirestore col rl mode scanFails fails).skippedCount = rl.length)
    ∧ (∀ items : List (List (String × JVal)),
        (items.filterMap recordOfCategoryItem).length ≤ items.length)
    ∧ (([[("name", JVal.jstr "X")]].filterMap recordOfCategoryItem).length = 0
        ∧ ([[("name", JVal.jstr "X")]] : List (List (String × JVal))).length = 1) := by
  have hid : docIdOf fields = none := by
    rw [docIdOf, rawDocId, h1, h2]
    rfl
  refine ⟨?_, ?_, ?_, batchWrite_counts_sum, ?_, by decide, by decide⟩
  · rw [recordOfCategoryItem, hid]
  · intro cid
    rw [recordOfPromptItem, hid]
  · rw [recordOfDetailItem, hid]
  · intro items
    exact List.length_filterMap_le _ _

/-- Claim C10 witness: the theorem evaluated on a concrete record
without ids, together with the degenerate one-item migration whose
counters sum to zero. -/
theorem claim10_witness :
    recordOfCategoryItem [("name", JVal.jstr "X")] = none
    ∧ recordOfPromptItem (some "cat1") [("name", JVal.jstr "X")] = none
    ∧ recordOfDetailItem [("name", JVal.jstr "X")] = none
    ∧ (batchWriteToFirestore []
        ([[("name", JVal.jstr "X")]].filterMap recordOfCategoryItem)
        .update false (fun _ => false)).successCount
      + (batchWriteToFirestore []
        ([[("name", JVal.jstr "X")]].filterMap recordOfCategoryItem)
        .update false (fun _ => false)).errorCount
      + (batchWriteToFirestore []
        ([[("name", JVal.jstr "X")]].filterMap recordOfCategoryItem)
        .update false (fun _ => false)).skippedCount
      = ([[("name", JVal.jstr "X")]].filterMap recordOfCategoryItem).length := by
  have h := claim10_missing_id [("name", JVal.jstr "X")] rfl rfl
  exact ⟨h.1, h.2.1 (some "cat1"), h.2.2.1,
    h.2.2.2.1 [] ([[("name", JVal.jstr "X")]].filterMap recordOfCategoryItem)
      .update false (fun _ => false)⟩
end Prompto
